import Mathlib

/-!
Verification of the inference-and-evaluation pipeline of the
`ccsc_CMEpredict` notebook (HyShai/RNN-CME-prediction).

The notebook loads a pre-trained recurrent model per configuration,
computes a probability per test sample, thresholds it into a binary
prediction, assembles a confusion matrix, stores the pair
`(y_test, bc)` in a results mapping keyed by the f-string "{type} {time_window}",
and finally computes ROC curves and AUROC scores over the stored pairs.

Probabilities and thresholds are modelled as rationals; labels as
naturals (`0` = negative, `1` = positive).
-/

namespace CMEpredict

/-- From cell-12 of `ccsc_CMEpredict.ipynb`:
`bc = [1 if p >= threshold else 0 for p in prob]` — one element of the
list comprehension, deciding a single probability `p` against the
configuration threshold. -/
def classify (p threshold : ℚ) : ℕ :=
  if threshold ≤ p then 1 else 0

/-- The whole list comprehension of cell-12, binarizing the vector of
predicted probabilities. -/
def binarize (probs : List ℚ) (threshold : ℚ) : List ℕ :=
  probs.map (fun p => classify p threshold)

/-- The four counts of a 2×2 binary confusion matrix, rows ordered
[negative, positive] by true label and columns ordered
[negative, positive] by predicted label, as in the notebook grid
`cm_grid` (rows TN FP / FN TP). -/
structure ConfMat where
  tn : ℕ
  fp : ℕ
  fn : ℕ
  tp : ℕ
deriving DecidableEq, Repr

/-- One update step: route a single (true label, predicted label) pair
to the cell it matches. Pairs outside {0,1}×{0,1} match no cell. -/
def cmStep (m : ConfMat) (q : ℕ × ℕ) : ConfMat :=
  if q.1 = 0 ∧ q.2 = 0 then { m with tn := m.tn + 1 }
  else if q.1 = 0 ∧ q.2 = 1 then { m with fp := m.fp + 1 }
  else if q.1 = 1 ∧ q.2 = 0 then { m with fn := m.fn + 1 }
  else if q.1 = 1 ∧ q.2 = 1 then { m with tp := m.tp + 1 }
  else m

/-- Modelled from the spec: `sklearn.metrics.confusion_matrix` (imported
as `cm` in cell-5 and applied as `cm(y_test, bc)` in cell-12; the
library source is not part of this repository).  The spec describes it
as "a 2×2 confusion matrix over (ground_truth, predicted) pairs with
rows ordered [negative, positive] and columns ordered
[negative, positive], counting exact label matches". -/
def confusion_matrix (y pred : List ℕ) : ConfMat :=
  (y.zip pred).foldl cmStep ⟨0, 0, 0, 0⟩

/-! ### Helper lemmas about the confusion-matrix fold -/

lemma cmStep_tn (m : ConfMat) (q : ℕ × ℕ) :
    (cmStep m q).tn = m.tn + (if q.1 = 0 ∧ q.2 = 0 then 1 else 0) := by
  unfold cmStep
  rcases q with ⟨a, b⟩
  by_cases h0 : a = 0 ∧ b = 0 <;> by_cases h1 : a = 0 ∧ b = 1 <;>
    by_cases h2 : a = 1 ∧ b = 0 <;> by_cases h3 : a = 1 ∧ b = 1 <;>
    simp [h0, h1, h2, h3]

lemma cmStep_fp (m : ConfMat) (q : ℕ × ℕ) :
    (cmStep m q).fp = m.fp + (if q.1 = 0 ∧ q.2 = 1 then 1 else 0) := by
  unfold cmStep
  rcases q with ⟨a, b⟩
  by_cases h0 : a = 0 ∧ b = 0 <;> by_cases h1 : a = 0 ∧ b = 1 <;>
    by_cases h2 : a = 1 ∧ b = 0 <;> by_cases h3 : a = 1 ∧ b = 1 <;>
    simp [h0, h1, h2, h3]

lemma cmStep_fn (m : ConfMat) (q : ℕ × ℕ) :
    (cmStep m q).fn = m.fn + (if q.1 = 1 ∧ q.2 = 0 then 1 else 0) := by
  unfold cmStep
  rcases q with ⟨a, b⟩
  by_cases h0 : a = 0 ∧ b = 0 <;> by_cases h1 : a = 0 ∧ b = 1 <;>
    by_cases h2 : a = 1 ∧ b = 0 <;> by_cases h3 : a = 1 ∧ b = 1 <;>
    simp [h0, h1, h2, h3]

lemma cmStep_tp (m : ConfMat) (q : ℕ × ℕ) :
    (cmStep m q).tp = m.tp + (if q.1 = 1 ∧ q.2 = 1 then 1 else 0) := by
  unfold cmStep
  rcases q with ⟨a, b⟩
  by_cases h0 : a = 0 ∧ b = 0 <;> by_cases h1 : a = 0 ∧ b = 1 <;>
    by_cases h2 : a = 1 ∧ b = 0 <;> by_cases h3 : a = 1 ∧ b = 1 <;>
    simp [h0, h1, h2, h3]

lemma foldl_cmStep_tn (l : List (ℕ × ℕ)) (m : ConfMat) :
    (l.foldl cmStep m).tn = m.tn + l.countP (fun q => q.1 = 0 ∧ q.2 = 0) := by
  induction l generalizing m with
  | nil => simp
  | cons q l ih =>
      rw [List.foldl_cons, ih, cmStep_tn, List.countP_cons]
      by_cases h : q.1 = 0 ∧ q.2 = 0 <;> simp [h] <;> omega

lemma foldl_cmStep_fp (l : List (ℕ × ℕ)) (m : ConfMat) :
    (l.foldl cmStep m).fp = m.fp + l.countP (fun q => q.1 = 0 ∧ q.2 = 1) := by
  induction l generalizing m with
  | nil => simp
  | cons q l ih =>
      rw [List.foldl_cons, ih, cmStep_fp, List.countP_cons]
      by_cases h : q.1 = 0 ∧ q.2 = 1 <;> simp [h] <;> omega

lemma foldl_cmStep_fn (l : List (ℕ × ℕ)) (m : ConfMat) :
    (l.foldl cmStep m).fn = m.fn + l.countP (fun q => q.1 = 1 ∧ q.2 = 0) := by
  induction l generalizing m with
  | nil => simp
  | cons q l ih =>
      rw [List.foldl_cons, ih, cmStep_fn, List.countP_cons]
      by_cases h : q.1 = 1 ∧ q.2 = 0 <;> simp [h] <;> omega

lemma foldl_cmStep_tp (l : List (ℕ × ℕ)) (m : ConfMat) :
    (l.foldl cmStep m).tp = m.tp + l.countP (fun q => q.1 = 1 ∧ q.2 = 1) := by
  induction l generalizing m with
  | nil => simp
  | cons q l ih =>
      rw [List.foldl_cons, ih, cmStep_tp, List.countP_cons]
      by_cases h : q.1 = 1 ∧ q.2 = 1 <;> simp [h] <;> omega

lemma confusion_matrix_tn (y pred : List ℕ) :
    (confusion_matrix y pred).tn
      = (y.zip pred).countP (fun q => q.1 = 0 ∧ q.2 = 0) := by
  unfold confusion_matrix
  rw [foldl_cmStep_tn]; simp

lemma confusion_matrix_fp (y pred : List ℕ) :
    (confusion_matrix y pred).fp
      = (y.zip pred).countP (fun q => q.1 = 0 ∧ q.2 = 1) := by
  unfold confusion_matrix
  rw [foldl_cmStep_fp]; simp

lemma confusion_matrix_fn (y pred : List ℕ) :
    (confusion_matrix y pred).fn
      = (y.zip pred).countP (fun q => q.1 = 1 ∧ q.2 = 0) := by
  unfold confusion_matrix
  rw [foldl_cmStep_fn]; simp

lemma confusion_matrix_tp (y pred : List ℕ) :
    (confusion_matrix y pred).tp
      = (y.zip pred).countP (fun q => q.1 = 1 ∧ q.2 = 1) := by
  unfold confusion_matrix
  rw [foldl_cmStep_tp]; simp

lemma binarize_mem (probs : List ℚ) (t : ℚ) :
    ∀ b ∈ binarize probs t, b = 0 ∨ b = 1 := by
  intro b hb
  unfold binarize at hb
  rcases List.mem_map.mp hb with ⟨p, _, hp⟩
  unfold classify at hp
  by_cases h : t ≤ p
  · right; rw [← hp]; simp [h]
  · left; rw [← hp]; simp [h]

lemma countP_four_partition (l : List (ℕ × ℕ))
    (h : ∀ q ∈ l, (q.1 = 0 ∨ q.1 = 1) ∧ (q.2 = 0 ∨ q.2 = 1)) :
    l.countP (fun q => q.1 = 0 ∧ q.2 = 0) + l.countP (fun q => q.1 = 0 ∧ q.2 = 1)
      + l.countP (fun q => q.1 = 1 ∧ q.2 = 0) + l.countP (fun q => q.1 = 1 ∧ q.2 = 1)
    = l.length := by
  induction l with
  | nil => simp
  | cons q l ih =>
      have hq := h q (List.mem_cons_self q l)
      have hl : ∀ r ∈ l, (r.1 = 0 ∨ r.1 = 1) ∧ (r.2 = 0 ∨ r.2 = 1) :=
        fun r hr => h r (List.mem_cons_of_mem q hr)
      have key := ih hl
      simp only [List.countP_cons, List.length_cons]
      rcases hq with ⟨h1 | h1, h2 | h2⟩ <;> simp [h1, h2] at key ⊢ <;> omega

/-- Modelled from the spec: the standard ROC threshold sweep of
`sklearn.metrics.roc_curve` (imported in cell-5, applied in cell-14;
the library source is not part of this repository): the decision
threshold sweeps "over all distinct probability values present", in
decreasing order. -/
def rocThresholds (scores : List ℚ) : List ℚ :=
  scores.dedup.insertionSort (fun a b => b ≤ a)

/-- True-positive rate of the classifier `score ≥ t` against ground
truth `y` (positives predicted positive over all positives). -/
def truePosRate (y : List ℕ) (scores : List ℚ) (t : ℚ) : ℚ :=
  ((y.zip scores).countP (fun q => q.1 = 1 ∧ t ≤ q.2) : ℚ)
    / (y.countP (fun l => l = 1) : ℚ)

/-- False-positive rate of the classifier `score ≥ t` against ground
truth `y` (negatives predicted positive over all negatives). -/
def falsePosRate (y : List ℕ) (scores : List ℚ) (t : ℚ) : ℚ :=
  ((y.zip scores).countP (fun q => q.1 = 0 ∧ t ≤ q.2) : ℚ)
    / (y.countP (fun l => l = 0) : ℚ)

/-- Modelled from the spec: "ROC curve: the ordered sequence of
(false-positive-rate, true-positive-rate) pairs obtained by sweeping
the decision threshold over all distinct probability values present
(standard ROC construction)", with the conventional starting point
(0,0) prepended. -/
def rocPoints (y : List ℕ) (scores : List ℚ) : List (ℚ × ℚ) :=
  (0, 0) ::
    (rocThresholds scores).map (fun t => (falsePosRate y scores t, truePosRate y scores t))

/-- The ROC curve the aggregation cell (cell-14) actually computes for
one stored configuration: `roc_curve(y_test, bc)` applied to the
already-binarized predictions `bc` (stored in cell-12 as
`results["{type} {time_window}"] = (y_test, bc)`), used as scores. -/
def configROC (y : List ℕ) (bc : List ℕ) : List (ℚ × ℚ) :=
  rocPoints y (bc.map (fun (b : ℕ) => (b : ℚ)))

lemma length_le_two_of_mem_zero_one (l : List ℚ)
    (hn : l.Nodup) (h : ∀ x ∈ l, x = 0 ∨ x = 1) : l.length ≤ 2 := by
  match l with
  | [] => simp
  | [a] => simp
  | [a, b] => simp
  | a :: b :: c :: rest =>
      exfalso
      have ha := h a (by simp)
      have hb := h b (by simp)
      have hc := h c (by simp)
      simp only [List.nodup_cons, List.mem_cons] at hn
      rcases ha with ha | ha <;> rcases hb with hb | hb <;>
        rcases hc with hc | hc <;> simp_all

lemma scenario_binarize :
    binarize [1/10, 9/10, 6/10, 4/10] (1/2) = [0, 1, 1, 0] := by
  norm_num [binarize, classify]

/-- Scores of the samples whose ground-truth label is `1`. -/
def posScores (y : List ℕ) (scores : List ℚ) : List ℚ :=
  ((y.zip scores).filter (fun q => q.1 == 1)).map Prod.snd

/-- Scores of the samples whose ground-truth label is `0`. -/
def negScores (y : List ℕ) (scores : List ℚ) : List ℚ :=
  ((y.zip scores).filter (fun q => q.1 == 0)).map Prod.snd

/-- Modelled from the spec: `sklearn.metrics.roc_auc_score` (imported in
cell-5, applied in cell-14; the library source is not part of this
repository).  Per the spec, "AUROC: the area under that curve; a scalar
in [0,1]", and "a configuration with only one class present in ground
truth makes AUROC undefined; this must be reported as a distinct
condition, not silently coerced to a default value" — sklearn raises a
ValueError with the message below.  The area is the standard rank
(Mann-Whitney) statistic, which agrees with trapezoidal integration of
the swept curve; ties count one half. -/
def roc_auc_score (y : List ℕ) (scores : List ℚ) : Except String ℚ :=
  let pos := posScores y scores
  let neg := negScores y scores
  if pos.length = 0 ∨ neg.length = 0 then
    .error "Only one class present in y_true. ROC AUC score is not defined in that case."
  else
    .ok (((pos.map (fun p =>
        (2 * neg.countP (fun n => n < p) + neg.countP (fun n => n = p) : ℕ))).sum : ℚ)
      / ((2 * pos.length * neg.length : ℕ) : ℚ))

lemma posScores_ne_nil (y : List ℕ) (scores : List ℚ)
    (hlen : y.length = scores.length) (h1 : 1 ∈ y) :
    posScores y scores ≠ [] := by
  induction y generalizing scores with
  | nil => cases h1
  | cons a ys ih =>
      cases scores with
      | nil => simp at hlen
      | cons s ss =>
          unfold posScores
          rcases List.mem_cons.mp h1 with h | h
          · subst h
            simp [List.filter_cons]
          · by_cases ha : a == 1
            · simp [List.filter_cons, ha]
            · simp only [List.zip_cons_cons, List.filter_cons, ha]
              have := ih ss (by simpa using hlen) h
              unfold posScores at this
              simpa using this

lemma negScores_ne_nil (y : List ℕ) (scores : List ℚ)
    (hlen : y.length = scores.length) (h0 : 0 ∈ y) :
    negScores y scores ≠ [] := by
  induction y generalizing scores with
  | nil => cases h0
  | cons a ys ih =>
      cases scores with
      | nil => simp at hlen
      | cons s ss =>
          unfold negScores
          rcases List.mem_cons.mp h0 with h | h
          · subst h
            simp [List.filter_cons]
          · by_cases ha : a == 0
            · simp [List.filter_cons, ha]
            · simp only [List.zip_cons_cons, List.filter_cons, ha]
              have := ih ss (by simpa using hlen) h
              unfold negScores at this
              simpa using this

lemma posScores_nil_of_all_zero (y : List ℕ) (scores : List ℚ)
    (h : ∀ l ∈ y, l = 0) : posScores y scores = [] := by
  unfold posScores
  rw [List.filter_eq_nil_iff.mpr, List.map_nil]
  intro q hq
  have := h q.1 (List.of_mem_zip hq).1
  simp [this]

lemma negScores_nil_of_all_one (y : List ℕ) (scores : List ℚ)
    (h : ∀ l ∈ y, l = 1) : negScores y scores = [] := by
  unfold negScores
  rw [List.filter_eq_nil_iff.mpr, List.map_nil]
  intro q hq
  have := h q.1 (List.of_mem_zip hq).1
  simp [this]

lemma auroc_term_le (neg : List ℚ) (p : ℚ) :
    2 * neg.countP (fun n => n < p) + neg.countP (fun n => n = p)
      ≤ 2 * neg.length := by
  have hsplit := List.length_eq_countP_add_countP (fun n => n == p) neg
  have hmono : neg.countP (fun n => n < p)
      ≤ neg.countP (fun n => decide ¬(n == p) = true) := by
    refine List.countP_mono_left ?_
    intro x _ hx
    simp only [decide_eq_true_eq] at hx ⊢
    intro hxp
    rw [beq_iff_eq] at hxp
    exact absurd hx (by rw [hxp]; exact lt_irrefl p)
  have heq : neg.countP (fun n => n = p) = neg.countP (fun n => n == p) := by
    refine List.countP_congr ?_
    intro x _
    simp
  omega

/-- The metrics cell-14 computes for one stored entry
`(y_test, bc)`: the AUROC `roc_auc_score(y_test, bc)` and the ROC
curve `roc_curve(y_test, bc)`, both over the stored binarized
predictions, using only the own data of the entry. -/
def configMetrics (d : List ℕ × List ℕ) : Except String ℚ × List (ℚ × ℚ) :=
  (roc_auc_score d.1 (d.2.map (fun (b : ℕ) => (b : ℚ))), configROC d.1 d.2)

/-- The aggregation loop of cell-14: `for name, (y_test, bc) in
results.items()`, computing metrics per stored entry. -/
def aggregate (results : List (String × (List ℕ × List ℕ))) :
    List (String × (Except String ℚ × List (ℚ × ℚ))) :=
  results.map (fun kv => (kv.1, configMetrics kv.2))

/-- Cell-12: `time_windows = [12, 36, 60]`. -/
def time_windows : List ℕ := [12, 36, 60]

/-- Cell-12: `rnn_types = ['gru', 'lstm']` (single-quoted in Python). -/
def rnn_types : List String := ["gru", "lstm"]

/-- The iteration order of cell-12:
`itertools.product(time_windows, rnn_types)` — time window outer,
algorithm inner. -/
def grid : List (ℕ × String) :=
  time_windows.bind (fun tw => rnn_types.map (fun t => (tw, t)))

/-- The results key written in cell-12, the f-string
"{type} {time_window}". -/
def configKey (t : String) (tw : ℕ) : String :=
  t ++ " " ++ toString tw

/-- One run of the prediction loop of cell-12 over a list of
configurations.  The external collaborators (`get_n_features_thresh`,
`load_model`, `load_data`, `model.predict`) are abstracted as an oracle
returning the ground truth, the raw probabilities and the threshold of
a configuration; `none` models a configuration whose persisted model
file is missing, making `load_model` raise and the loop stop there.
`results` is an insertion-ordered mapping (a Python dict), modelled as
the ordered list of written (key, value) entries; each successful
iteration appends `results[configKey] = (y_test, bc)`. -/
def runGrid (cfgs : List (ℕ × String))
    (oracle : ℕ × String → Option (List ℕ × List ℚ × ℚ)) :
    List (String × (List ℕ × List ℕ)) :=
  match cfgs with
  | [] => []
  | c :: rest =>
      match oracle c with
      | none => []
      | some (y, probs, thr) =>
          (configKey c.2 c.1, (y, binarize probs thr)) :: runGrid rest oracle

lemma runGrid_keys_and_values (cfgs : List (ℕ × String))
    (oracle : ℕ × String → Option (List ℕ × List ℚ × ℚ))
    (h : ∀ c ∈ cfgs, (oracle c).isSome) :
    (runGrid cfgs oracle).map Prod.fst
        = cfgs.map (fun c => configKey c.2 c.1) ∧
    ∀ c ∈ cfgs, ∃ y probs thr, oracle c = some (y, probs, thr) ∧
      (configKey c.2 c.1, (y, binarize probs thr)) ∈ runGrid cfgs oracle := by
  induction cfgs with
  | nil => simp [runGrid]
  | cons c rest ih =>
      have hc := h c (List.mem_cons_self c rest)
      rcases Option.isSome_iff_exists.mp hc with ⟨v, hv⟩
      rcases v with ⟨y, probs, thr⟩
      have hrest := ih (fun d hd => h d (List.mem_cons_of_mem c hd))
      constructor
      · simp only [runGrid, hv, List.map_cons]
        rw [hrest.1]
      · intro d hd
        rcases List.mem_cons.mp hd with hdc | hdm
        · subst hdc
          exact ⟨y, probs, thr, hv, by simp [runGrid, hv]⟩
        · rcases hrest.2 d hdm with ⟨y2, p2, t2, ho, hmem⟩
          exact ⟨y2, p2, t2, ho, by simp only [runGrid, hv]; exact List.mem_cons_of_mem _ hmem⟩

/-- Python str.upper for the ASCII strings the notebook uses, applied
in cell-12 (`type.upper()`) and cell-14 (`name.upper()`): uppercase
every character, digits and spaces unchanged. -/
def upperStr (s : String) : String :=
  ⟨s.data.map Char.toUpper⟩

/-- Modelled from the spec: the C-style `%0.3f` conversion of cell-14
renders the AUROC "formatted to three decimal places"; modelled for
the nonnegative rationals AUROC takes — round to the nearest
thousandth and print with exactly three fractional digits. -/
def fmt3 (q : ℚ) : String :=
  let n := (round (q * 1000)).toNat
  toString (n / 1000) ++ "." ++
    (if n % 1000 < 10 then "00" else if n % 1000 < 100 then "0" else "")
    ++ toString (n % 1000)

/-- The legend entry cell-14 renders for one stored configuration:
the f-string "{name.upper()} Hour (AUROC = %0.3f)" formatted with
`r_auc`, where `name` is the stored results key. -/
def legendLabel (name : String) (auc : ℚ) : String :=
  upperStr name ++ " Hour (AUROC = " ++ fmt3 auc ++ ")"

/-- The format the spec states for legend entries:
"{ALGORITHM} {TIME_WINDOW} Hour (AUROC = x.xxx)", with the algorithm
name upper-cased and the AUROC to three decimal places. -/
def specLegendLabel (alg : String) (tw : ℕ) (auc : ℚ) : String :=
  upperStr alg ++ " " ++ toString tw ++ " Hour (AUROC = " ++ fmt3 auc ++ ")"

/-- The two sequence-model architectures the helper module can build
(`lstm(n_features, series_len)` and `gru(n_features, series_len)`). -/
inductive RNNModel where
  | lstmNet (n_features series_len : ℕ)
  | gruNet (n_features series_len : ℕ)
deriving DecidableEq, Repr

/-- From cell-16: `if type is 'lstm': model = lstm(n_features,
series_len)` / `elif type is 'gru': model = gru(n_features,
series_len)`.  CPython interns identifier-like string literals, so the
`is` identity comparison against the literal coincides with string
equality for the literal-assigned values this cell handles.  There is
no `else` branch: for any other algorithm string no model is
assigned. -/
def buildModel (t : String) (n_features series_len : ℕ) : Option RNNModel :=
  if t = "lstm" then some (RNNModel.lstmNet n_features series_len)
  else if t = "gru" then some (RNNModel.gruNet n_features series_len)
  else none

/-- Cell-16 continues with `model.compile(...)`: when no dispatch
branch assigned `model`, that name is undefined in the cell and Python
raises a NameError — there is no default or fallback construction. -/
def trainCellModel (t : String) (n_features series_len : ℕ) :
    Except String RNNModel :=
  match buildModel t n_features series_len with
  | some m => Except.ok m
  | none => Except.error "NameError: name model is not defined"

end CMEpredict

/-- C1: for every probability `p` and configuration threshold `t`, the
binary classification of `p` equals `1` iff `p ≥ t` (the boundary case
`p = t` classifies as positive; the comparison is inclusive `≥`, not
strict `>`), and equals `0` otherwise (i.e. exactly when `p < t`). -/
theorem classify_one_iff_ge (p t : ℚ) :
    (CMEpredict.classify p t = 1 ↔ p ≥ t) ∧
    (CMEpredict.classify p t = 0 ↔ p < t) := by
  unfold CMEpredict.classify
  by_cases h : t ≤ p
  · simp [h, not_lt.mpr h, ge_iff_le]
  · simp [h, lt_of_not_le h, ge_iff_le]

/-- C4: each cell of the 2×2 confusion matrix (rows [negative, positive]
by true label, columns [negative, positive] by predicted label) counts
exactly the (ground_truth, predicted) pairs matching that combination;
and on the concrete scenario — ground truth `[0,1,0,1]`, probabilities
`[0.1, 0.9, 0.6, 0.4]`, threshold `0.5` — the predictions are
`[0,1,1,0]` and the confusion matrix is TN=1, FP=1, FN=1, TP=1. -/
theorem confusion_matrix_cells_and_scenario (y pred : List ℕ) :
    ((CMEpredict.confusion_matrix y pred).tn
        = (y.zip pred).countP (fun q => q.1 = 0 ∧ q.2 = 0) ∧
     (CMEpredict.confusion_matrix y pred).fp
        = (y.zip pred).countP (fun q => q.1 = 0 ∧ q.2 = 1) ∧
     (CMEpredict.confusion_matrix y pred).fn
        = (y.zip pred).countP (fun q => q.1 = 1 ∧ q.2 = 0) ∧
     (CMEpredict.confusion_matrix y pred).tp
        = (y.zip pred).countP (fun q => q.1 = 1 ∧ q.2 = 1)) ∧
    (CMEpredict.binarize [1/10, 9/10, 6/10, 4/10] (1/2) = [0, 1, 1, 0] ∧
     CMEpredict.confusion_matrix [0, 1, 0, 1]
        (CMEpredict.binarize [1/10, 9/10, 6/10, 4/10] (1/2)) = ⟨1, 1, 1, 1⟩) :=
  ⟨⟨CMEpredict.confusion_matrix_tn y pred, CMEpredict.confusion_matrix_fp y pred,
    CMEpredict.confusion_matrix_fn y pred, CMEpredict.confusion_matrix_tp y pred⟩,
   by norm_num [CMEpredict.binarize, CMEpredict.classify],
   by
     have hb : CMEpredict.binarize [1/10, 9/10, 6/10, 4/10] (1/2) = [0, 1, 1, 0] := by
       norm_num [CMEpredict.binarize, CMEpredict.classify]
     rw [hb]; decide⟩

/-- C5: for every batch — ground-truth labels in {0,1} and predictions
obtained by binarizing the same number of probabilities — the four
confusion-matrix counts sum to the batch size `N`. -/
theorem confusion_matrix_counts_sum (y : List ℕ) (probs : List ℚ) (t : ℚ)
    (hlab : ∀ l ∈ y, l = 0 ∨ l = 1) (hlen : y.length = probs.length) :
    (CMEpredict.confusion_matrix y (CMEpredict.binarize probs t)).tn
      + (CMEpredict.confusion_matrix y (CMEpredict.binarize probs t)).fp
      + (CMEpredict.confusion_matrix y (CMEpredict.binarize probs t)).fn
      + (CMEpredict.confusion_matrix y (CMEpredict.binarize probs t)).tp
    = y.length := by
  rw [CMEpredict.confusion_matrix_tn, CMEpredict.confusion_matrix_fp,
    CMEpredict.confusion_matrix_fn, CMEpredict.confusion_matrix_tp]
  have hz : ∀ q ∈ y.zip (CMEpredict.binarize probs t),
      (q.1 = 0 ∨ q.1 = 1) ∧ (q.2 = 0 ∨ q.2 = 1) := by
    intro q hq
    rcases q with ⟨a, b⟩
    have := List.of_mem_zip hq
    exact ⟨hlab a this.1, CMEpredict.binarize_mem probs t b this.2⟩
  rw [CMEpredict.countP_four_partition _ hz, List.length_zip]
  unfold CMEpredict.binarize
  rw [List.length_map, ← hlen, min_self]

/-- Closed witness for C5 at the concrete scenario batch. -/
theorem confusion_matrix_counts_sum_witness :
    (CMEpredict.confusion_matrix [0, 1, 0, 1]
        (CMEpredict.binarize [1/10, 9/10, 6/10, 4/10] (1/2))).tn
      + (CMEpredict.confusion_matrix [0, 1, 0, 1]
          (CMEpredict.binarize [1/10, 9/10, 6/10, 4/10] (1/2))).fp
      + (CMEpredict.confusion_matrix [0, 1, 0, 1]
          (CMEpredict.binarize [1/10, 9/10, 6/10, 4/10] (1/2))).fn
      + (CMEpredict.confusion_matrix [0, 1, 0, 1]
          (CMEpredict.binarize [1/10, 9/10, 6/10, 4/10] (1/2))).tp
    = ([0, 1, 0, 1] : List ℕ).length :=
  confusion_matrix_counts_sum [0, 1, 0, 1] [1/10, 9/10, 6/10, 4/10] (1/2)
    (by decide) (by decide)

/-- C2 counterexample: on the concrete scenario configuration — ground
truth `[0,1,0,1]`, raw probabilities `[0.1, 0.9, 0.6, 0.4]`, threshold
`0.5` — the ROC curve the aggregator computes from the stored binarized
predictions is NOT the ROC curve swept over the distinct raw
probability values: the former has 3 points, the latter 5. -/
theorem configROC_ne_raw_rocPoints :
    CMEpredict.configROC [0, 1, 0, 1]
        (CMEpredict.binarize [1/10, 9/10, 6/10, 4/10] (1/2))
      ≠ CMEpredict.rocPoints [0, 1, 0, 1] [1/10, 9/10, 6/10, 4/10] := by
  rw [CMEpredict.scenario_binarize]
  have h1 : CMEpredict.configROC [0, 1, 0, 1] [0, 1, 1, 0]
      = [(0, 0), (1/2, 1/2), (1, 1)] := by
    norm_num [CMEpredict.configROC, CMEpredict.rocPoints, CMEpredict.rocThresholds,
      CMEpredict.truePosRate, CMEpredict.falsePosRate,
      List.insertionSort, List.orderedInsert,
      List.dedup_cons_of_mem, List.dedup_cons_of_not_mem,
      List.countP_cons, List.zip]
  have h2 : CMEpredict.rocPoints [0, 1, 0, 1] [1/10, 9/10, 6/10, 4/10]
      = [(0, 0), (0, 1/2), (1/2, 1/2), (1/2, 1), (1, 1)] := by
    norm_num [CMEpredict.rocPoints, CMEpredict.rocThresholds,
      CMEpredict.truePosRate, CMEpredict.falsePosRate,
      List.insertionSort, List.orderedInsert,
      List.dedup_cons_of_mem, List.dedup_cons_of_not_mem,
      List.countP_cons, List.zip]
  rw [h1, h2]
  intro h
  exact absurd (congrArg List.length h) (by norm_num)

/-- C2 amended: the aggregator computes the ROC curve of each configuration
by the standard threshold sweep applied to the already-binarized 0/1 predictions of that configuration (not the raw probabilities), so the
sweep runs over at most the two distinct values {0,1} and the curve
has at most 3 points (including the conventional (0,0) start) — a
single interior operating point — rather than one point per distinct
raw probability. -/
theorem configROC_is_binarized_sweep (y : List ℕ) (probs : List ℚ) (t : ℚ) :
    CMEpredict.configROC y (CMEpredict.binarize probs t)
        = CMEpredict.rocPoints y
            ((CMEpredict.binarize probs t).map (fun (b : ℕ) => (b : ℚ))) ∧
    (CMEpredict.configROC y (CMEpredict.binarize probs t)).length ≤ 3 := by
  refine ⟨rfl, ?_⟩
  unfold CMEpredict.configROC CMEpredict.rocPoints CMEpredict.rocThresholds
  rw [List.length_cons, List.length_map, List.length_insertionSort]
  have hm : ∀ x ∈ ((CMEpredict.binarize probs t).map (fun (b : ℕ) => (b : ℚ))).dedup,
      x = 0 ∨ x = 1 := by
    intro x hx
    rcases List.mem_map.mp (List.mem_dedup.mp hx) with ⟨b, hb, hbx⟩
    rcases CMEpredict.binarize_mem probs t b hb with h0 | h0 <;>
      [left; right] <;> rw [← hbx, h0] <;> norm_num
  have := CMEpredict.length_le_two_of_mem_zero_one _ (List.nodup_dedup _) hm
  omega

/-- C3: when the ground truth of a configuration contains only one
class (all 0 or all 1), the AUROC computation signals a distinct error
condition (sklearn raises a ValueError) rather than silently returning
a default value; when both classes are present, the computed AUROC is a
value in [0, 1]. -/
theorem auroc_single_class_error_and_unit_range (y : List ℕ) (scores : List ℚ)
    (hlen : y.length = scores.length) :
    (((∀ l ∈ y, l = 0) ∨ (∀ l ∈ y, l = 1)) →
        CMEpredict.roc_auc_score y scores
          = Except.error
              "Only one class present in y_true. ROC AUC score is not defined in that case.") ∧
    ((0 ∈ y ∧ 1 ∈ y) →
        ∃ a, CMEpredict.roc_auc_score y scores = Except.ok a ∧ 0 ≤ a ∧ a ≤ 1) := by
  constructor
  · intro h
    unfold CMEpredict.roc_auc_score
    rcases h with h | h
    · rw [CMEpredict.posScores_nil_of_all_zero y scores h]
      simp
    · rw [CMEpredict.negScores_nil_of_all_one y scores h]
      simp
  · rintro ⟨h0, h1⟩
    have hp := CMEpredict.posScores_ne_nil y scores hlen h1
    have hn := CMEpredict.negScores_ne_nil y scores hlen h0
    have hp0 : 0 < (CMEpredict.posScores y scores).length :=
      List.length_pos.mpr hp
    have hn0 : 0 < (CMEpredict.negScores y scores).length :=
      List.length_pos.mpr hn
    unfold CMEpredict.roc_auc_score
    rw [if_neg (by omega)]
    refine ⟨_, rfl, ?_, ?_⟩
    · apply div_nonneg
      · exact_mod_cast Nat.zero_le _
      · exact_mod_cast Nat.zero_le _
    · rw [div_le_one (by exact_mod_cast Nat.pos_of_ne_zero (by positivity))]
      have hsum : ((CMEpredict.posScores y scores).map (fun p =>
            (2 * (CMEpredict.negScores y scores).countP (fun n => n < p)
              + (CMEpredict.negScores y scores).countP (fun n => n = p) : ℕ))).sum
          ≤ (CMEpredict.posScores y scores).length
              * (2 * (CMEpredict.negScores y scores).length) := by
        have hb : ∀ x ∈ (CMEpredict.posScores y scores).map (fun p =>
              (2 * (CMEpredict.negScores y scores).countP (fun n => n < p)
                + (CMEpredict.negScores y scores).countP (fun n => n = p) : ℕ)),
            x ≤ 2 * (CMEpredict.negScores y scores).length := by
          intro x hx
          rcases List.mem_map.mp hx with ⟨p, _, rfl⟩
          exact CMEpredict.auroc_term_le (CMEpredict.negScores y scores) p
        have := List.sum_le_card_nsmul _ _ hb
        rwa [List.length_map, smul_eq_mul] at this
      calc ((((CMEpredict.posScores y scores).map (fun p =>
            (2 * (CMEpredict.negScores y scores).countP (fun n => n < p)
              + (CMEpredict.negScores y scores).countP (fun n => n = p) : ℕ))).sum : ℕ) : ℚ)
          ≤ (((CMEpredict.posScores y scores).length
              * (2 * (CMEpredict.negScores y scores).length) : ℕ) : ℚ) := by
            exact_mod_cast hsum
        _ = ((2 * (CMEpredict.posScores y scores).length
              * (CMEpredict.negScores y scores).length : ℕ) : ℚ) := by
            congr 1
            ring

/-- Closed witness for C3: ground truth `[0, 1]` with scores
`[1/4, 3/4]` contains both classes, so AUROC is a defined value in
[0,1]; ground truth `[0, 0]` is single-class, so AUROC is the error. -/
theorem auroc_single_class_error_and_unit_range_witness :
    (((∀ l ∈ ([0, 0] : List ℕ), l = 0) ∨ (∀ l ∈ ([0, 0] : List ℕ), l = 1)) →
        CMEpredict.roc_auc_score [0, 0] [1/4, 3/4]
          = Except.error
              "Only one class present in y_true. ROC AUC score is not defined in that case.") ∧
    ((0 ∈ ([0, 1] : List ℕ) ∧ 1 ∈ ([0, 1] : List ℕ)) →
        ∃ a, CMEpredict.roc_auc_score [0, 1] [1/4, 3/4]
          = Except.ok a ∧ 0 ≤ a ∧ a ≤ 1) :=
  ⟨(auroc_single_class_error_and_unit_range [0, 0] [1/4, 3/4] (by decide)).1,
   (auroc_single_class_error_and_unit_range [0, 1] [1/4, 3/4] (by decide)).2⟩

/-- C6: evaluation aggregation is order-independent — evaluating the
stored configurations in any permuted order permutes the computed
metric entries accordingly, and every configuration keeps identical
metrics in both orders, because the metrics of a configuration depend
only on its own (labels, predictions) data. -/
theorem aggregate_order_independent
    (l1 l2 : List (String × (List ℕ × List ℕ))) (hperm : l1.Perm l2) :
    (CMEpredict.aggregate l1).Perm (CMEpredict.aggregate l2) ∧
    ∀ k d, (k, d) ∈ l1 →
      (k, CMEpredict.configMetrics d) ∈ CMEpredict.aggregate l1 ∧
      (k, CMEpredict.configMetrics d) ∈ CMEpredict.aggregate l2 := by
  refine ⟨hperm.map _, ?_⟩
  intro k d hmem
  exact ⟨List.mem_map.mpr ⟨(k, d), hmem, rfl⟩,
    List.mem_map.mpr ⟨(k, d), hperm.mem_iff.mp hmem, rfl⟩⟩

/-- Closed witness for C6 on a two-entry results mapping evaluated in
the two possible orders. -/
theorem aggregate_order_independent_witness :
    (CMEpredict.aggregate
        [("gru 12", ([0, 1], [0, 1])), ("lstm 12", ([1, 0], [1, 1]))]).Perm
      (CMEpredict.aggregate
        [("lstm 12", ([1, 0], [1, 1])), ("gru 12", ([0, 1], [0, 1]))]) ∧
    ∀ k d, (k, d) ∈ [("gru 12", ([0, 1], [0, 1])), ("lstm 12", ([1, 0], [1, 1]))] →
      (k, CMEpredict.configMetrics d) ∈ CMEpredict.aggregate
          [("gru 12", ([0, 1], [0, 1])), ("lstm 12", ([1, 0], [1, 1]))] ∧
      (k, CMEpredict.configMetrics d) ∈ CMEpredict.aggregate
          [("lstm 12", ([1, 0], [1, 1])), ("gru 12", ([0, 1], [0, 1]))] :=
  aggregate_order_independent
    [("gru 12", ([0, 1], [0, 1])), ("lstm 12", ([1, 0], [1, 1]))]
    [("lstm 12", ([1, 0], [1, 1])), ("gru 12", ([0, 1], [0, 1]))]
    (List.Perm.swap _ _ _)

/-- C7: when a configuration `k` of the grid fails (its oracle yields
nothing, e.g. the persisted model file is missing so `load_model`
raises), the results mapping after the run is exactly the mapping built
from the configurations processed before `k`: the failure neither
modifies nor removes any entry written for an earlier configuration. -/
theorem runGrid_failure_preserves_prior (pre post : List (ℕ × String))
    (k : ℕ × String)
    (oracle : ℕ × String → Option (List ℕ × List ℚ × ℚ))
    (hfail : oracle k = none) :
    CMEpredict.runGrid (pre ++ k :: post) oracle
      = CMEpredict.runGrid pre oracle := by
  induction pre with
  | nil => simp [CMEpredict.runGrid, hfail]
  | cons c rest ih =>
      simp only [List.cons_append, CMEpredict.runGrid]
      cases oracle c with
      | none => rfl
      | some v =>
          rcases v with ⟨y, probs, thr⟩
          simp only [List.append_eq] at ih ⊢
          rw [ih]

/-- Closed witness for C7: the lstm-12 model file is missing, the grid
run stops there, and the results still hold exactly the entry written
for the earlier gru-12 configuration. -/
theorem runGrid_failure_preserves_prior_witness :
    CMEpredict.runGrid ([(12, "gru")] ++ (12, "lstm") :: [(36, "gru")])
        (fun c => if c.2 = "lstm" then none else some ([0, 1], [1/4, 3/4], 1/2))
      = CMEpredict.runGrid [(12, "gru")]
        (fun c => if c.2 = "lstm" then none else some ([0, 1], [1/4, 3/4], 1/2)) :=
  runGrid_failure_preserves_prior [(12, "gru")] [(36, "gru")] (12, "lstm") _ (by simp)

/-- C9: a complete successful run of the prediction grid writes exactly
one results entry per (algorithm, time_window) pair of
{gru, lstm} × {12, 36, 60} — six entries, keyed
"{algorithm} {time_window}", each key written exactly once (the key
list has no duplicates), and each entry holding the pair of the ground
truth and the binarized predictions of its own configuration. -/
theorem runGrid_complete_results
    (oracle : ℕ × String → Option (List ℕ × List ℚ × ℚ))
    (h : ∀ c ∈ CMEpredict.grid, (oracle c).isSome) :
    (CMEpredict.runGrid CMEpredict.grid oracle).map Prod.fst
        = ["gru 12", "lstm 12", "gru 36", "lstm 36", "gru 60", "lstm 60"] ∧
    ((CMEpredict.runGrid CMEpredict.grid oracle).map Prod.fst).Nodup ∧
    (CMEpredict.runGrid CMEpredict.grid oracle).length = 6 ∧
    ∀ c ∈ CMEpredict.grid, ∃ y probs thr,
      oracle c = some (y, probs, thr) ∧
      (CMEpredict.configKey c.2 c.1, (y, CMEpredict.binarize probs thr))
        ∈ CMEpredict.runGrid CMEpredict.grid oracle := by
  have hkv := CMEpredict.runGrid_keys_and_values CMEpredict.grid oracle h
  have hkeys : (CMEpredict.runGrid CMEpredict.grid oracle).map Prod.fst
      = ["gru 12", "lstm 12", "gru 36", "lstm 36", "gru 60", "lstm 60"] := by
    rw [hkv.1]
    rfl
  refine ⟨hkeys, ?_, ?_, hkv.2⟩
  · rw [hkeys]
    decide
  · have := congrArg List.length hkeys
    rw [List.length_map] at this
    simpa using this

/-- Closed witness for C9 with an oracle that succeeds on every grid
configuration. -/
theorem runGrid_complete_results_witness :
    (CMEpredict.runGrid CMEpredict.grid
          (fun _ => some ([0, 1], [1/4, 3/4], 1/2))).map Prod.fst
        = ["gru 12", "lstm 12", "gru 36", "lstm 36", "gru 60", "lstm 60"] ∧
    ((CMEpredict.runGrid CMEpredict.grid
          (fun _ => some ([0, 1], [1/4, 3/4], 1/2))).map Prod.fst).Nodup ∧
    (CMEpredict.runGrid CMEpredict.grid
          (fun _ => some ([0, 1], [1/4, 3/4], 1/2))).length = 6 ∧
    ∀ c ∈ CMEpredict.grid, ∃ y probs thr,
      (fun (_ : ℕ × String) => some ([0, 1], [1/4, 3/4], 1/2)) c
          = some (y, probs, thr) ∧
      (CMEpredict.configKey c.2 c.1, (y, CMEpredict.binarize probs thr))
        ∈ CMEpredict.runGrid CMEpredict.grid
            (fun _ => some ([0, 1], [1/4, 3/4], 1/2)) :=
  runGrid_complete_results (fun _ => some ([0, 1], [1/4, 3/4], 1/2))
    (fun _ _ => rfl)

/-- C8: for every grid configuration (algorithm ∈ {gru, lstm}, time
window ∈ {12, 36, 60}) and every computed AUROC value, the legend entry
rendered from the stored key equals the string of the spec format
"{ALGORITHM} {TIME_WINDOW} Hour (AUROC = x.xxx)": the algorithm name
upper-cased and the AUROC to three decimal places. -/
theorem legend_label_format (alg : String) (tw : ℕ) (auc : ℚ)
    (halg : alg ∈ CMEpredict.rnn_types) (htw : tw ∈ CMEpredict.time_windows) :
    CMEpredict.legendLabel (CMEpredict.configKey alg tw) auc
      = CMEpredict.specLegendLabel alg tw auc := by
  fin_cases halg <;> fin_cases htw <;>
    exact congrArg (· ++ ")") (congrArg (· ++ CMEpredict.fmt3 auc) (by decide))

/-- Closed witness for C8 at the gru 12-hour configuration with
AUROC 1/2. -/
theorem legend_label_format_witness :
    CMEpredict.legendLabel (CMEpredict.configKey "gru" 12) (1/2)
      = CMEpredict.specLegendLabel "gru" 12 (1/2) :=
  legend_label_format "gru" 12 (1/2) (by decide) (by decide)

/-- C10: the training cell constructs a model exactly for the literal
algorithm strings "lstm" (an LSTM) and "gru" (a GRU); for any other
algorithm value no branch assigns a model and the subsequent training
step fails with an undefined-name error — no default or fallback
construction path exists. -/
theorem train_dispatch_no_fallback (nf sl : ℕ) :
    CMEpredict.buildModel "lstm" nf sl
        = some (CMEpredict.RNNModel.lstmNet nf sl) ∧
    CMEpredict.buildModel "gru" nf sl
        = some (CMEpredict.RNNModel.gruNet nf sl) ∧
    ∀ t, t ≠ "lstm" → t ≠ "gru" →
      CMEpredict.buildModel t nf sl = none ∧
      CMEpredict.trainCellModel t nf sl
        = Except.error "NameError: name model is not defined" := by
  refine ⟨by simp [CMEpredict.buildModel], by simp [CMEpredict.buildModel], ?_⟩
  intro t h1 h2
  have hb : CMEpredict.buildModel t nf sl = none := by
    unfold CMEpredict.buildModel
    rw [if_neg h1, if_neg h2]
  exact ⟨hb, by unfold CMEpredict.trainCellModel; rw [hb]⟩

/-- Closed witness for C10 at the algorithm string "rnn", which matches
neither branch. -/
theorem train_dispatch_no_fallback_witness :
    CMEpredict.buildModel "lstm" 10 20
        = some (CMEpredict.RNNModel.lstmNet 10 20) ∧
    CMEpredict.buildModel "gru" 10 20
        = some (CMEpredict.RNNModel.gruNet 10 20) ∧
    (CMEpredict.buildModel "rnn" 10 20 = none ∧
     CMEpredict.trainCellModel "rnn" 10 20
        = Except.error "NameError: name model is not defined") :=
  ⟨(train_dispatch_no_fallback 10 20).1,
   (train_dispatch_no_fallback 10 20).2.1,
   (train_dispatch_no_fallback 10 20).2.2 "rnn" (by decide) (by decide)⟩
